import Mathlib

/-!
# perf_monitor.cpp: counter lifecycle and sampling loop

A shallow embedding of `src/perf_monitor.cpp`.

* The kernel is a parameter: a deterministic state machine `Kernel σ` that answers the four
  system calls the program makes (`perf_event_open`, `ioctl`, `read`, the sleep).  The program
  threads a `World`, the kernel state together with the list of calls issued so far and what
  each returned.
* `outfile << x` appends the token `x` to the stream; the stream is the list of tokens written.
* The two `const int` of `main` (`interval`, `total_duration`) are arguments of `mainWith`;
  `main` is `mainWith` at the program's values 5 and 30 * 60.
* `int` and `long long` values are integers of `Int`.  No arithmetic of the program leaves the
  range of its type for a positive interval: `(i + 1) * interval` never exceeds
  `total_duration`.
* Console output (`cout`, `cerr`) is advisory and is not part of the embedding.
-/

namespace PerfMonitor

/-! ## The kernel interface -/

/-- The constants of `linux/perf_event.h` that `setupCounters` names.  The header is not part
of the repository, so the catalog takes them as a parameter. -/
structure PerfABI where
  PERF_TYPE_HARDWARE : Nat
  PERF_TYPE_HW_CACHE : Nat
  PERF_COUNT_HW_INSTRUCTIONS : Nat
  PERF_COUNT_HW_BRANCH_MISSES : Nat
  PERF_COUNT_HW_BUS_CYCLES : Nat
  PERF_COUNT_HW_CACHE_L1D : Nat
  PERF_COUNT_HW_CACHE_OP_READ : Nat
  PERF_COUNT_HW_CACHE_RESULT_MISS : Nat
  PERF_COUNT_HW_CACHE_RESULT_ACCESS : Nat

/-- Modelled from the spec: the values the Linux kernel ABI documents for the constants of
`linux/perf_event.h` (the header itself is absent from the repository): `L1D = 0`,
`OP_READ = 0`, `RESULT_ACCESS = 0`, `RESULT_MISS = 1`, and the type and event enumerators. -/
def linuxABI : PerfABI where
  PERF_TYPE_HARDWARE := 0
  PERF_TYPE_HW_CACHE := 3
  PERF_COUNT_HW_INSTRUCTIONS := 1
  PERF_COUNT_HW_BRANCH_MISSES := 5
  PERF_COUNT_HW_BUS_CYCLES := 6
  PERF_COUNT_HW_CACHE_L1D := 0
  PERF_COUNT_HW_CACHE_OP_READ := 0
  PERF_COUNT_HW_CACHE_RESULT_MISS := 1
  PERF_COUNT_HW_CACHE_RESULT_ACCESS := 0

/-- The fields of `struct perf_event_attr` that `setupCounters` sets (all others are zeroed by
the `memset`; `size` is the size of the structure). -/
structure PerfEventAttr where
  type : Int
  config : Int
  disabled : Nat
  exclude_kernel : Nat
  exclude_hv : Nat
  deriving DecidableEq, Repr

/-- The three `ioctl` requests the program issues. -/
inductive IoctlRequest where
  | PERF_EVENT_IOC_RESET
  | PERF_EVENT_IOC_ENABLE
  | PERF_EVENT_IOC_DISABLE
  deriving DecidableEq, Repr

/-- One system call together with what it returned.  For `perf_event_open`, `none` is the
failure return (-1 with `errno` set) and `some fd` a new descriptor; for `read`, `some v` is a
complete 8-byte read of the value `v` and `none` any return that stores nothing.  `close` is
part of the alphabet so that releases can be counted. -/
inductive Event where
  | perf_event_open (attr : PerfEventAttr) (pid cpu group_fd flags : Int) (ret : Option Nat)
  | ioctl (fd : Int) (request : IoctlRequest) (ret : Int)
  | read (fd : Int) (ret : Option Int)
  | sleep_for (seconds : Int)
  | close (fd : Int)
  deriving DecidableEq, Repr

/-- A kernel: a deterministic state machine over `σ` answering the program's system calls. -/
structure Kernel (σ : Type) where
  perf_event_open : σ → PerfEventAttr → Int → Int → Int → Int → Option Nat × σ
  ioctl : σ → Int → IoctlRequest → Int × σ
  read : σ → Int → Option Int × σ
  sleep_for : σ → Int → σ

/-- The kernel state and the calls issued so far, oldest first. -/
structure World (σ : Type) where
  kernel : σ
  trace : List Event

/-- The world at process start. -/
def World.init {σ : Type} (s : σ) : World σ := { kernel := s, trace := [] }

/-- The `long` a `perf_event_open` system call returns: -1 on failure, else the descriptor
(descriptors are below 2^31, so the conversion to the `int` field `fd` is exact). -/
def sysret : Option Nat → Int
  | none => -1
  | some fd => (fd : Int)

/-- The `perf_event_open` wrapper of the source: the raw system call; returns the new
descriptor, or -1. -/
def perf_event_open {σ : Type} (K : Kernel σ) (hw_event : PerfEventAttr)
    (pid cpu group_fd flags : Int) (w : World σ) : Int × World σ :=
  let r := K.perf_event_open w.kernel hw_event pid cpu group_fd flags
  (sysret r.1,
   { kernel := r.2,
     trace := w.trace ++ [Event.perf_event_open hw_event pid cpu group_fd flags r.1] })

/-- The call `ioctl(fd, request, 0)`. -/
def ioctl {σ : Type} (K : Kernel σ) (fd : Int) (request : IoctlRequest) (w : World σ) :
    Int × World σ :=
  let r := K.ioctl w.kernel fd request
  (r.1, { kernel := r.2, trace := w.trace ++ [Event.ioctl fd request r.1] })

/-- The call `read(fd, &value, sizeof(long long))`: the value stored, if any. -/
def read {σ : Type} (K : Kernel σ) (fd : Int) (w : World σ) : Option Int × World σ :=
  let r := K.read w.kernel fd
  (r.1, { kernel := r.2, trace := w.trace ++ [Event.read fd r.1] })

/-- The call `this_thread::sleep_for(chrono::seconds(seconds))`. -/
def sleep_for {σ : Type} (K : Kernel σ) (seconds : Int) (w : World σ) : World σ :=
  { kernel := K.sleep_for w.kernel seconds, trace := w.trace ++ [Event.sleep_for seconds] }

/-! ## The program -/

/-- The `struct PerfCounter` of the source, with its default member initialisers. -/
structure PerfCounter where
  name : String
  type : Int
  config : Int
  fd : Int := -1
  value : Int := 0
  deriving DecidableEq, Repr

/-- The bit-packed selector of a cache event, as written twice in `setupCounters`. -/
def cacheConfig (level operation result : Nat) : Nat :=
  level ||| (operation <<< 8) ||| (result <<< 16)

/-- The initialiser list of `counters` in `setupCounters`. -/
def catalog (abi : PerfABI) : List PerfCounter :=
  let READ := abi.PERF_COUNT_HW_CACHE_OP_READ
  let MISS := abi.PERF_COUNT_HW_CACHE_RESULT_MISS
  let ACCESS := abi.PERF_COUNT_HW_CACHE_RESULT_ACCESS
  [ { name := "L1D_CACHE_REFILL", type := abi.PERF_TYPE_HW_CACHE,
      config := (cacheConfig abi.PERF_COUNT_HW_CACHE_L1D READ MISS : Nat) },
    { name := "L1D_CACHE_ACCESS", type := abi.PERF_TYPE_HW_CACHE,
      config := (cacheConfig abi.PERF_COUNT_HW_CACHE_L1D READ ACCESS : Nat) },
    { name := "INSTRUCTIONS", type := abi.PERF_TYPE_HARDWARE,
      config := abi.PERF_COUNT_HW_INSTRUCTIONS },
    { name := "BRANCH_MISPREDICTS", type := abi.PERF_TYPE_HARDWARE,
      config := abi.PERF_COUNT_HW_BRANCH_MISSES },
    { name := "BUS_ACCESS", type := abi.PERF_TYPE_HARDWARE,
      config := abi.PERF_COUNT_HW_BUS_CYCLES } ]

/-- The attribute block `setupCounters` fills in for a counter. -/
def attrOf (c : PerfCounter) : PerfEventAttr :=
  { type := c.type, config := c.config, disabled := 1, exclude_kernel := 0, exclude_hv := 1 }

/-- The loop of `setupCounters`: one `perf_event_open` per counter, the result stored in
`fd`; nothing is tested but the diagnostic. -/
def openCounters {σ : Type} (K : Kernel σ) :
    List PerfCounter → World σ → List PerfCounter × World σ
  | [], w => ([], w)
  | c :: cs, w =>
    let pe := attrOf c
    let r := perf_event_open K pe 0 (-1) (-1) 0 w
    let c1 : PerfCounter := { c with fd := r.1 }
    let rest := openCounters K cs r.2
    (c1 :: rest.1, rest.2)

/-- The function `setupCounters`. -/
def setupCounters {σ : Type} (abi : PerfABI) (K : Kernel σ) (w : World σ) :
    List PerfCounter × World σ :=
  openCounters K (catalog abi) w

/-- The function `startCounters`: reset then enable, each guarded by `fd != -1`; the results
of `ioctl` are discarded. -/
def startCounters {σ : Type} (K : Kernel σ) : List PerfCounter → World σ → World σ
  | [], w => w
  | c :: cs, w =>
    let w1 := if c.fd ≠ -1 then (ioctl K c.fd IoctlRequest.PERF_EVENT_IOC_RESET w).2 else w
    let w2 := if c.fd ≠ -1 then (ioctl K c.fd IoctlRequest.PERF_EVENT_IOC_ENABLE w1).2 else w1
    startCounters K cs w2

/-- The function `stopCounters`: disable then read into `value`, each guarded by `fd != -1`;
the results of `ioctl` and `read` are discarded, so a failed read leaves `value` as it was. -/
def stopCounters {σ : Type} (K : Kernel σ) :
    List PerfCounter → World σ → List PerfCounter × World σ
  | [], w => ([], w)
  | c :: cs, w =>
    let w1 := if c.fd ≠ -1 then (ioctl K c.fd IoctlRequest.PERF_EVENT_IOC_DISABLE w).2 else w
    let r : PerfCounter × World σ :=
      if c.fd ≠ -1 then
        let rd := read K c.fd w1
        (match rd.1 with
          | some v => { c with value := v }
          | none => c,
         rd.2)
      else (c, w1)
    let rest := stopCounters K cs r.2
    (r.1 :: rest.1, rest.2)

/-- What is written to the output stream by one `<<`. -/
inductive Tok where
  | str (s : String)
  | num (n : Int)
  deriving DecidableEq, Repr

/-- The header loop of `main`: `"," << c.name` for each counter with `fd != -1`. -/
def writeNames (counters : List PerfCounter) (out : List Tok) : List Tok :=
  counters.foldl (fun o c => if c.fd ≠ -1 then o ++ [Tok.str ",", Tok.str c.name] else o) out

/-- The row loop of `main`: `"," << c.value` for each counter with `fd != -1`. -/
def writeValues (counters : List PerfCounter) (out : List Tok) : List Tok :=
  counters.foldl (fun o c => if c.fd ≠ -1 then o ++ [Tok.str ",", Tok.num c.value] else o) out

/-- The variables of `main` that its loop changes. -/
structure LoopState (σ : Type) where
  counters : List PerfCounter
  world : World σ
  outfile : List Tok

/-- The `for (int i = 0; i < iterations; ++i)` loop of `main`, from index `i` on. -/
def mainLoop {σ : Type} (K : Kernel σ) (interval iterations : Int) (i : Int)
    (st : LoopState σ) : LoopState σ :=
  if i < iterations then
    let w1 := startCounters K st.counters st.world
    let w2 := sleep_for K interval w1
    let r := stopCounters K st.counters w2
    let out1 := st.outfile ++ [Tok.num ((i + 1) * interval)]
    let out2 := writeValues r.1 out1
    let out3 := out2 ++ [Tok.str "\n"]
    mainLoop K interval iterations (i + 1) { counters := r.1, world := r.2, outfile := out3 }
  else st
termination_by (iterations - i).toNat
decreasing_by omega

/-- What `main` leaves behind: its return value, the counters, the world, and the content of
the output file (`none` when the file could not be opened). -/
structure MainResult (σ : Type) where
  status : Int
  counters : List PerfCounter
  world : World σ
  outfile : Option (List Tok)

/-- The function `main`, with its two constants as arguments.  `fileOpens` is whether the
`ofstream` could be opened.  The result is `none` for `interval = 0`, where the source divides
by zero (undefined behaviour). -/
def mainWith {σ : Type} (abi : PerfABI) (K : Kernel σ) (fileOpens : Bool)
    (interval total_duration : Int) (s : σ) : Option (MainResult σ) :=
  let r := setupCounters abi K (World.init s)
  let counters := r.1
  if ¬ fileOpens then
    some { status := 1, counters := counters, world := r.2, outfile := none }
  else
    let out1 := [Tok.str "Time(s)"]
    let out2 := writeNames counters out1
    let out3 := out2 ++ [Tok.str "\n"]
    if interval = 0 then none
    else
      let iterations := Int.tdiv total_duration interval
      let st := mainLoop K interval iterations 0
        { counters := counters, world := r.2, outfile := out3 }
      some { status := 0, counters := st.counters, world := st.world,
             outfile := some st.outfile }

/-- The function `main`: `interval = 5`, `total_duration = 30 * 60`. -/
def main {σ : Type} (abi : PerfABI) (K : Kernel σ) (fileOpens : Bool) (s : σ) :
    Option (MainResult σ) :=
  mainWith abi K fileOpens 5 (30 * 60) s

/-! ## Vocabulary of the statements -/

/-- A counter is live when its `fd` is not the sentinel -1. -/
def live (c : PerfCounter) : Bool := decide (c.fd ≠ -1)

/-- The names of the live counters, in registry order. -/
def liveNames (counters : List PerfCounter) : List String :=
  (counters.filter live).map PerfCounter.name

/-- The values of the live counters, in registry order. -/
def liveValues (counters : List PerfCounter) : List Int :=
  (counters.filter live).map PerfCounter.value

/-- A line of the file: the cells separated by `","` and ended by a newline. -/
def csvLine (cells : List Tok) : List Tok :=
  cells.intersperse (Tok.str ",") ++ [Tok.str "\n"]

/-- The header line for the given column names. -/
def headerLine (names : List String) : List Tok :=
  csvLine (Tok.str "Time(s)" :: names.map Tok.str)

/-- The data line of a record: the elapsed time, then the values. -/
def rowLine (elapsed : Int) (values : List Int) : List Tok :=
  csvLine (Tok.num elapsed :: values.map Tok.num)

/-- One pass of the body of the loop of `main` over the counters and the world:
`startCounters`, the sleep, `stopCounters`. -/
def sampleOnce {σ : Type} (K : Kernel σ) (interval : Int)
    (p : List PerfCounter × World σ) : List PerfCounter × World σ :=
  stopCounters K p.1 (sleep_for K interval (startCounters K p.1 p.2))

/-- The counters and the world after `setupCounters` and `k` passes of the loop body. -/
def stateAfter {σ : Type} (abi : PerfABI) (K : Kernel σ) (interval : Int) (s : σ) (k : Nat) :
    List PerfCounter × World σ :=
  (sampleOnce K interval)^[k] (setupCounters abi K (World.init s))

/-- The counter `c1` is the counter `c` at a later time: same name, type, config and fd,
and unchanged altogether when `c` is not live. -/
def SameHandle (c c1 : PerfCounter) : Prop :=
  c1.name = c.name ∧ c1.type = c.type ∧ c1.config = c.config ∧ c1.fd = c.fd ∧
    (c.fd = -1 → c1 = c)

/-- A system call without what it returned. -/
inductive Call where
  | perf_event_open (attr : PerfEventAttr) (pid cpu group_fd flags : Int)
  | ioctl (fd : Int) (request : IoctlRequest)
  | read (fd : Int)
  | sleep_for (seconds : Int)
  | close (fd : Int)
  deriving DecidableEq, Repr

/-- The call of an event. -/
def Event.call : Event → Call
  | Event.perf_event_open attr pid cpu group_fd flags _ =>
    Call.perf_event_open attr pid cpu group_fd flags
  | Event.ioctl fd request _ => Call.ioctl fd request
  | Event.read fd _ => Call.read fd
  | Event.sleep_for seconds => Call.sleep_for seconds
  | Event.close fd => Call.close fd

/-- The descriptor a call operates on (`none` for an open and for the sleep). -/
def Call.target : Call → Option Int
  | Call.perf_event_open _ _ _ _ _ => none
  | Call.ioctl fd _ => some fd
  | Call.read fd => some fd
  | Call.sleep_for _ => none
  | Call.close fd => some fd

/-- What the `read` calls of a trace returned, in order. -/
def readResults (trace : List Event) : List (Option Int) :=
  trace.filterMap (fun e =>
    match e with
    | Event.read _ ret => some ret
    | _ => none)

/-- Reset then enable, for each live counter in registry order. -/
def startCalls (counters : List PerfCounter) : List Call :=
  (counters.filter live).flatMap (fun c =>
    [Call.ioctl c.fd IoctlRequest.PERF_EVENT_IOC_RESET,
     Call.ioctl c.fd IoctlRequest.PERF_EVENT_IOC_ENABLE])

/-- Disable then read, for each live counter in registry order. -/
def stopCalls (counters : List PerfCounter) : List Call :=
  (counters.filter live).flatMap (fun c =>
    [Call.ioctl c.fd IoctlRequest.PERF_EVENT_IOC_DISABLE, Call.read c.fd])

/-- The calls of one iteration: the resets and enables, one sleep, the disables and reads. -/
def iterationCalls (interval : Int) (counters : List PerfCounter) : List Call :=
  startCalls counters ++ [Call.sleep_for interval] ++ stopCalls counters

/-- The open issued for a catalog entry. -/
def openCall (c : PerfCounter) : Call :=
  Call.perf_event_open (attrOf c) 0 (-1) (-1) 0

/-- The number of successful `perf_event_open` calls of a trace. -/
def acquisitions (trace : List Event) : Nat :=
  (trace.filter (fun e =>
    match e with
    | Event.perf_event_open _ _ _ _ _ (some _) => true
    | _ => false)).length

/-- The number of `close` calls of a trace. -/
def releases (trace : List Event) : Nat :=
  (trace.filter (fun e =>
    match e with
    | Event.close _ => true
    | _ => false)).length

/-- Whether a call is the sleep. -/
def Call.isSleep : Call → Bool
  | Call.sleep_for _ => true
  | _ => false

/-- The sub-fields of a cache event selector: level, operation, result. -/
def unpackConfig (config : Nat) : Nat × Nat × Nat :=
  (config &&& 0xff, (config >>> 8) &&& 0xff, (config >>> 16) &&& 0xff)

/-! ## Synthetic kernels -/

/-- A 64-bit count as the `long long` that `read` stores. -/
def toInt64 (n : Nat) : Int :=
  (((n + 2 ^ 63) % 2 ^ 64 : Nat) : Int) - 2 ^ 63

/-- The state of the synthetic counter source: the outcomes of the coming opens, and per
descriptor the accumulated count and whether it is enabled. -/
structure SynthState where
  script : List (Option Nat)
  count : Int → Nat
  enabled : Int → Bool

/-- The synthetic counter source: opens answer from the script (and fail when it is used up),
reset sets the count of a descriptor to 0, an enabled descriptor `fd` grows by `rate fd` per
second slept, and read returns the accumulated count. -/
def synthKernel (rate : Int → Nat) : Kernel SynthState where
  perf_event_open s _ _ _ _ _ :=
    match s.script with
    | [] => (none, s)
    | o :: rest => (o, { s with script := rest })
  ioctl s fd request :=
    match request with
    | IoctlRequest.PERF_EVENT_IOC_RESET => (0, { s with count := Function.update s.count fd 0 })
    | IoctlRequest.PERF_EVENT_IOC_ENABLE =>
      (0, { s with enabled := Function.update s.enabled fd true })
    | IoctlRequest.PERF_EVENT_IOC_DISABLE =>
      (0, { s with enabled := Function.update s.enabled fd false })
  read s fd := (some (toInt64 (s.count fd)), s)
  sleep_for s seconds :=
    { s with count := fun fd =>
        if s.enabled fd then s.count fd + rate fd * seconds.toNat else s.count fd }

/-- The synthetic source at process start: nothing counted, nothing enabled. -/
def synthInit (script : List (Option Nat)) : SynthState :=
  { script := script, count := fun _ => 0, enabled := fun _ => false }

/-- A kernel on which every open succeeds (descriptors `n`, `n + 1`, ...) and every later
operation on a counter fails: `ioctl` returns -1 and `read` stores nothing. -/
def brokenKernel : Kernel Nat where
  perf_event_open n _ _ _ _ _ := (some n, n + 1)
  ioctl n _ _ := (-1, n)
  read n _ := (none, n)
  sleep_for n _ := n

/-! ## The catalog and its selectors -/

theorem sysret_eq_neg_one (o : Option Nat) : sysret o = -1 ↔ o = none := by
  cases o with
  | none => simp [sysret]
  | some fd =>
    simp only [sysret]
    constructor
    · intro h
      omega
    · intro h
      cases h

theorem catalog_length (abi : PerfABI) : (catalog abi).length = 5 := rfl

/-- C10: the selector of each cache counter of the catalog is the packing
level | (operation << 8) | (result << 16) of its sub-fields; with the documented kernel
constants L1D_CACHE_REFILL has config 65536 and L1D_CACHE_ACCESS has config 0, unpacking gives
back (L1D, READ, MISS) = (0, 0, 1) and (L1D, READ, ACCESS) = (0, 0, 0), and the two selectors
differ. -/
theorem catalog_cache_config :
    (∀ abi : PerfABI,
      (catalog abi).map PerfCounter.config =
        [((abi.PERF_COUNT_HW_CACHE_L1D ||| (abi.PERF_COUNT_HW_CACHE_OP_READ <<< 8) |||
            (abi.PERF_COUNT_HW_CACHE_RESULT_MISS <<< 16) : Nat) : Int),
         ((abi.PERF_COUNT_HW_CACHE_L1D ||| (abi.PERF_COUNT_HW_CACHE_OP_READ <<< 8) |||
            (abi.PERF_COUNT_HW_CACHE_RESULT_ACCESS <<< 16) : Nat) : Int),
         (abi.PERF_COUNT_HW_INSTRUCTIONS : Int),
         (abi.PERF_COUNT_HW_BRANCH_MISSES : Int),
         (abi.PERF_COUNT_HW_BUS_CYCLES : Int)]) ∧
    (catalog linuxABI).map (fun c => (c.name, c.config)) =
      [("L1D_CACHE_REFILL", 65536), ("L1D_CACHE_ACCESS", 0), ("INSTRUCTIONS", 1),
       ("BRANCH_MISPREDICTS", 5), ("BUS_ACCESS", 6)] ∧
    unpackConfig 65536 =
      (linuxABI.PERF_COUNT_HW_CACHE_L1D, linuxABI.PERF_COUNT_HW_CACHE_OP_READ,
       linuxABI.PERF_COUNT_HW_CACHE_RESULT_MISS) ∧
    unpackConfig 0 =
      (linuxABI.PERF_COUNT_HW_CACHE_L1D, linuxABI.PERF_COUNT_HW_CACHE_OP_READ,
       linuxABI.PERF_COUNT_HW_CACHE_RESULT_ACCESS) ∧
    unpackConfig 65536 = (0, 0, 1) ∧ unpackConfig 0 = (0, 0, 0) ∧
    (catalog linuxABI).map (fun c => (c.type, c.config)) =
      [(3, 65536), (3, 0), (0, 1), (0, 5), (0, 6)] := by
  refine ⟨fun abi => rfl, by decide, by decide, by decide, by decide, by decide, by decide⟩

/-! ## `setupCounters` -/

/-- The counter `setupCounters` stores for a catalog entry whose open returned `o`. -/
theorem openCounters_spec {σ : Type} (K : Kernel σ) (cs : List PerfCounter) (w : World σ) :
    ∃ outs : List (Option Nat), outs.length = cs.length ∧
      (openCounters K cs w).1 =
        List.zipWith (fun c o => ({ c with fd := sysret o } : PerfCounter)) cs outs ∧
      (openCounters K cs w).2.trace =
        w.trace ++ List.zipWith
          (fun c o => Event.perf_event_open (attrOf c) 0 (-1) (-1) 0 o) cs outs := by
  induction cs generalizing w with
  | nil => exact ⟨[], rfl, rfl, by simp [openCounters]⟩
  | cons c cs ih =>
    obtain ⟨outs, hlen, hcs, htr⟩ := ih (perf_event_open K (attrOf c) 0 (-1) (-1) 0 w).2
    refine ⟨(K.perf_event_open w.kernel (attrOf c) 0 (-1) (-1) 0).1 :: outs, ?_, ?_, ?_⟩
    · simp [hlen]
    · simp only [openCounters, List.zipWith_cons_cons, hcs]
      rfl
    · simp only [openCounters, List.zipWith_cons_cons, htr]
      simp [perf_event_open]

theorem list_length_five {α : Type} (l : List α) (h : l.length = 5) :
    ∃ a b c d e, l = [a, b, c, d, e] := by
  match l, h with
  | [a, b, c, d, e], _ => exact ⟨a, b, c, d, e, rfl⟩

theorem synth_openCounters (rate : Int → Nat) (cs : List PerfCounter) (outs : List (Option Nat))
    (h : outs.length = cs.length) (w : World SynthState) (hw : w.kernel.script = outs) :
    (openCounters (synthKernel rate) cs w).1 =
      List.zipWith (fun c o => ({ c with fd := sysret o } : PerfCounter)) cs outs := by
  induction cs generalizing w outs with
  | nil => simp [openCounters]
  | cons c cs ih =>
    cases outs with
    | nil => simp at h
    | cons o outs =>
      simp only [List.length_cons, Nat.add_right_cancel_iff] at h
      simp only [openCounters, List.zipWith_cons_cons]
      have h1 : (perf_event_open (synthKernel rate) (attrOf c) 0 (-1) (-1) 0 w).1 = sysret o := by
        simp [perf_event_open, synthKernel, hw]
      have h2 : (perf_event_open (synthKernel rate) (attrOf c) 0 (-1) (-1) 0 w).2.kernel.script
          = outs := by
        simp [perf_event_open, synthKernel, hw]
      rw [ih outs h _ h2, h1]

/-- C1: whatever the kernel answers to the five `perf_event_open` calls, `setupCounters` issues
one open per catalog entry, in catalog order and with the entry's type and config, and returns
one counter per entry, in catalog order, with name, type and config unchanged and with
`fd = -1` exactly when the open of that entry failed; every combination of outcomes of the
five opens can occur (the scripted kernel produces it) and gives five counters. -/
theorem setupCounters_one_per_entry {σ : Type} (abi : PerfABI) (K : Kernel σ) (w : World σ) :
    (∃ o1 o2 o3 o4 o5 : Option Nat,
      (setupCounters abi K w).2.trace =
        w.trace ++ List.zipWith (fun c o => Event.perf_event_open (attrOf c) 0 (-1) (-1) 0 o)
          (catalog abi) [o1, o2, o3, o4, o5] ∧
      (setupCounters abi K w).1 =
        List.zipWith (fun c o => ({ c with fd := sysret o } : PerfCounter))
          (catalog abi) [o1, o2, o3, o4, o5] ∧
      (setupCounters abi K w).1.map (fun c => decide (c.fd = -1)) =
        [o1, o2, o3, o4, o5].map (fun o => decide (o = none))) ∧
    (setupCounters abi K w).1.length = 5 ∧
    (setupCounters abi K w).1.map PerfCounter.name =
      ["L1D_CACHE_REFILL", "L1D_CACHE_ACCESS", "INSTRUCTIONS", "BRANCH_MISPREDICTS",
       "BUS_ACCESS"] ∧
    (setupCounters abi K w).1.map (fun c => (c.name, c.type, c.config)) =
      (catalog abi).map (fun c => (c.name, c.type, c.config)) ∧
    (∀ (rate : Int → Nat) (o1 o2 o3 o4 o5 : Option Nat),
      (setupCounters abi (synthKernel rate) (World.init (synthInit [o1, o2, o3, o4, o5]))).1 =
        List.zipWith (fun c o => ({ c with fd := sysret o } : PerfCounter))
          (catalog abi) [o1, o2, o3, o4, o5]) := by
  obtain ⟨outs, hlen, hcs, htr⟩ := openCounters_spec K (catalog abi) w
  rw [catalog_length] at hlen
  obtain ⟨o1, o2, o3, o4, o5, rfl⟩ := list_length_five outs hlen
  have hcs1 : (setupCounters abi K w).1 =
      List.zipWith (fun c o => ({ c with fd := sysret o } : PerfCounter))
        (catalog abi) [o1, o2, o3, o4, o5] := hcs
  refine ⟨⟨o1, o2, o3, o4, o5, htr, hcs1, ?_⟩, ?_, ?_, ?_, ?_⟩
  · rw [hcs1]
    simp [catalog, sysret_eq_neg_one]
  · rw [hcs1]
    rfl
  · rw [hcs1]
    rfl
  · rw [hcs1]
    rfl
  · intro rate o1 o2 o3 o4 o5
    exact synth_openCounters rate (catalog abi) [o1, o2, o3, o4, o5] rfl _ rfl

/-! ## `startCounters` and `stopCounters` -/

theorem SameHandle.refl (c : PerfCounter) : SameHandle c c :=
  ⟨rfl, rfl, rfl, rfl, fun _ => rfl⟩

theorem SameHandle.trans {a b c : PerfCounter} (h1 : SameHandle a b) (h2 : SameHandle b c) :
    SameHandle a c := by
  obtain ⟨n1, t1, c1, f1, d1⟩ := h1
  obtain ⟨n2, t2, c2, f2, d2⟩ := h2
  refine ⟨n2.trans n1, t2.trans t1, c2.trans c1, f2.trans f1, fun h => ?_⟩
  rw [d2 (f1.trans h), d1 h]

theorem sameHandles_refl (cs : List PerfCounter) : List.Forall₂ SameHandle cs cs := by
  induction cs with
  | nil => exact List.Forall₂.nil
  | cons c cs ih => exact List.Forall₂.cons (SameHandle.refl c) ih

theorem sameHandles_trans {as bs cs : List PerfCounter} (h1 : List.Forall₂ SameHandle as bs)
    (h2 : List.Forall₂ SameHandle bs cs) : List.Forall₂ SameHandle as cs := by
  induction h1 generalizing cs with
  | nil => cases h2; exact List.Forall₂.nil
  | cons hab _ ih =>
    cases h2 with
    | cons hbc h2 => exact List.Forall₂.cons (hab.trans hbc) (ih h2)

theorem live_eq_of_sameHandle {c c1 : PerfCounter} (h : SameHandle c c1) : live c1 = live c := by
  simp [live, h.2.2.2.1]

theorem sameHandles_map_fd {cs cs1 : List PerfCounter} (h : List.Forall₂ SameHandle cs cs1) :
    cs1.map PerfCounter.fd = cs.map PerfCounter.fd := by
  induction h with
  | nil => rfl
  | cons hc _ ih => simp [ih, hc.2.2.2.1]

theorem sameHandles_liveNames {cs cs1 : List PerfCounter} (h : List.Forall₂ SameHandle cs cs1) :
    liveNames cs1 = liveNames cs := by
  induction h with
  | nil => rfl
  | @cons a b l1 l2 hc _ ih =>
    unfold liveNames at ih ⊢
    simp only [List.filter_cons, live_eq_of_sameHandle hc]
    cases live a <;> simp [ih, hc.1]

theorem sameHandles_live_fd {cs cs1 : List PerfCounter} (h : List.Forall₂ SameHandle cs cs1) :
    (cs1.filter live).map PerfCounter.fd = (cs.filter live).map PerfCounter.fd := by
  induction h with
  | nil => rfl
  | @cons a b l1 l2 hc _ ih =>
    simp only [List.filter_cons, live_eq_of_sameHandle hc]
    cases live a <;> simp [ih, hc.2.2.2.1]

theorem sameHandles_dead {cs cs1 : List PerfCounter} (h : List.Forall₂ SameHandle cs cs1) :
    cs1.filter (fun c => !live c) = cs.filter (fun c => !live c) := by
  induction h with
  | nil => rfl
  | @cons a b l1 l2 hc _ ih =>
    simp only [List.filter_cons, live_eq_of_sameHandle hc]
    cases hl : live a
    · have hfd : a.fd = -1 := by simpa [live] using hl
      simp [ih, hc.2.2.2.2 hfd]
    · simp [ih]

theorem startCalls_eq_map (cs : List PerfCounter) :
    startCalls cs = ((cs.filter live).map PerfCounter.fd).flatMap (fun fd =>
      [Call.ioctl fd IoctlRequest.PERF_EVENT_IOC_RESET,
       Call.ioctl fd IoctlRequest.PERF_EVENT_IOC_ENABLE]) := by
  simp [startCalls, List.flatMap_map]

theorem stopCalls_eq_map (cs : List PerfCounter) :
    stopCalls cs = ((cs.filter live).map PerfCounter.fd).flatMap (fun fd =>
      [Call.ioctl fd IoctlRequest.PERF_EVENT_IOC_DISABLE, Call.read fd]) := by
  simp [stopCalls, List.flatMap_map]

theorem liveValues_length (cs : List PerfCounter) :
    (liveValues cs).length = ((cs.filter live).map PerfCounter.fd).length := by
  simp [liveValues]

theorem liveNames_length (cs : List PerfCounter) :
    (liveNames cs).length = ((cs.filter live).map PerfCounter.fd).length := by
  simp [liveNames]

theorem sameHandles_iterationCalls {cs cs1 : List PerfCounter} (interval : Int)
    (h : List.Forall₂ SameHandle cs cs1) :
    iterationCalls interval cs1 = iterationCalls interval cs := by
  simp only [iterationCalls, startCalls_eq_map, stopCalls_eq_map, sameHandles_live_fd h]

theorem startCounters_trace {σ : Type} (K : Kernel σ) (cs : List PerfCounter) (w : World σ) :
    ∃ es, (startCounters K cs w).trace = w.trace ++ es ∧ es.map Event.call = startCalls cs := by
  induction cs generalizing w with
  | nil => exact ⟨[], by simp [startCounters], rfl⟩
  | cons c cs ih =>
    by_cases hc : c.fd = -1
    · obtain ⟨es, h1, h2⟩ := ih w
      refine ⟨es, ?_, ?_⟩
      · simpa [startCounters, hc] using h1
      · simpa [startCalls, live, hc] using h2
    · obtain ⟨es, h1, h2⟩ := ih
        (ioctl K c.fd IoctlRequest.PERF_EVENT_IOC_ENABLE
          (ioctl K c.fd IoctlRequest.PERF_EVENT_IOC_RESET w).2).2
      refine ⟨Event.ioctl c.fd IoctlRequest.PERF_EVENT_IOC_RESET
          (K.ioctl w.kernel c.fd IoctlRequest.PERF_EVENT_IOC_RESET).1 ::
        Event.ioctl c.fd IoctlRequest.PERF_EVENT_IOC_ENABLE
          (K.ioctl (K.ioctl w.kernel c.fd IoctlRequest.PERF_EVENT_IOC_RESET).2 c.fd
            IoctlRequest.PERF_EVENT_IOC_ENABLE).1 :: es, ?_, ?_⟩
      · simp only [startCounters, hc, ne_eq, not_false_eq_true, if_true, h1]
        simp [ioctl]
      · simp only [startCalls] at h2 ⊢
        simp [live, hc, h2, Event.call]

theorem stopCounters_spec {σ : Type} (K : Kernel σ) (cs : List PerfCounter) (w : World σ) :
    List.Forall₂ SameHandle cs (stopCounters K cs w).1 ∧
    ∃ es, (stopCounters K cs w).2.trace = w.trace ++ es ∧ es.map Event.call = stopCalls cs := by
  induction cs generalizing w with
  | nil => exact ⟨List.Forall₂.nil, [], by simp [stopCounters], rfl⟩
  | cons c cs ih =>
    by_cases hc : c.fd = -1
    · obtain ⟨hs, es, h1, h2⟩ := ih w
      refine ⟨?_, es, ?_, ?_⟩
      · simp only [stopCounters, hc, ne_eq, not_true_eq_false, if_false]
        exact List.Forall₂.cons (SameHandle.refl c) hs
      · simpa [stopCounters, hc] using h1
      · simpa [stopCalls, live, hc] using h2
    · obtain ⟨hs, es, h1, h2⟩ := ih
        (read K c.fd (ioctl K c.fd IoctlRequest.PERF_EVENT_IOC_DISABLE w).2).2
      refine ⟨?_, Event.ioctl c.fd IoctlRequest.PERF_EVENT_IOC_DISABLE
          (K.ioctl w.kernel c.fd IoctlRequest.PERF_EVENT_IOC_DISABLE).1 ::
        Event.read c.fd
          (K.read (K.ioctl w.kernel c.fd IoctlRequest.PERF_EVENT_IOC_DISABLE).2 c.fd).1 :: es,
        ?_, ?_⟩
      · simp only [stopCounters, hc, ne_eq, not_false_eq_true, if_true]
        refine List.Forall₂.cons ?_ hs
        cases (read K c.fd (ioctl K c.fd IoctlRequest.PERF_EVENT_IOC_DISABLE w).2).1 with
        | none => exact SameHandle.refl c
        | some v => exact ⟨rfl, rfl, rfl, rfl, fun h => absurd h hc⟩
      · simp only [stopCounters, hc, ne_eq, not_false_eq_true, if_true, h1]
        simp [ioctl, read]
      · simp only [stopCalls] at h2 ⊢
        simp [live, hc, h2, Event.call]

/-! ## The output stream -/

theorem intersperse_cons {α : Type} (sep x : α) (l : List α) :
    (x :: l).intersperse sep = x :: l.flatMap (fun c => [sep, c]) := by
  induction l generalizing x with
  | nil => rfl
  | cons y l ih =>
    rw [List.intersperse_cons₂, ih]
    rfl

theorem csvLine_cons (x : Tok) (cells : List Tok) :
    csvLine (x :: cells) = x :: (cells.flatMap (fun c => [Tok.str ",", c]) ++ [Tok.str "\n"]) := by
  simp [csvLine, intersperse_cons]

theorem writeNames_eq (cs : List PerfCounter) (out : List Tok) :
    writeNames cs out = out ++ (liveNames cs).flatMap (fun n => [Tok.str ",", Tok.str n]) := by
  induction cs generalizing out with
  | nil => simp [writeNames, liveNames]
  | cons c cs ih =>
    unfold writeNames at ih ⊢
    unfold liveNames at ih ⊢
    rw [List.foldl_cons, ih]
    by_cases hc : c.fd = -1 <;> simp [live, hc]

theorem writeValues_eq (cs : List PerfCounter) (out : List Tok) :
    writeValues cs out = out ++ (liveValues cs).flatMap (fun v => [Tok.str ",", Tok.num v]) := by
  induction cs generalizing out with
  | nil => simp [writeValues, liveValues]
  | cons c cs ih =>
    unfold writeValues at ih ⊢
    unfold liveValues at ih ⊢
    rw [List.foldl_cons, ih]
    by_cases hc : c.fd = -1 <;> simp [live, hc]

theorem header_written (cs : List PerfCounter) :
    writeNames cs [Tok.str "Time(s)"] ++ [Tok.str "\n"] = headerLine (liveNames cs) := by
  rw [writeNames_eq, headerLine, csvLine_cons]
  simp [List.flatMap_map]

theorem row_written (cs : List PerfCounter) (out : List Tok) (t : Int) :
    writeValues cs (out ++ [Tok.num t]) ++ [Tok.str "\n"] = out ++ rowLine t (liveValues cs) := by
  rw [writeValues_eq, rowLine, csvLine_cons]
  simp [List.flatMap_map]

/-! ## The loop of `main` -/

theorem mainLoop_eq {σ : Type} (K : Kernel σ) (interval iterations : Int) :
    ∀ (n : Nat) (i : Int) (st : LoopState σ), (iterations - i).toNat = n →
      mainLoop K interval iterations i st =
        { counters := ((sampleOnce K interval)^[n] (st.counters, st.world)).1,
          world := ((sampleOnce K interval)^[n] (st.counters, st.world)).2,
          outfile := st.outfile ++ (List.range n).flatMap (fun k =>
            rowLine ((i + (k : Int) + 1) * interval)
              (liveValues ((sampleOnce K interval)^[k + 1] (st.counters, st.world)).1)) } := by
  intro n
  induction n with
  | zero =>
    intro i st h
    have hi : ¬ i < iterations := by omega
    rw [mainLoop, if_neg hi]
    simp
  | succ n ih =>
    intro i st h
    have hi : i < iterations := by omega
    have hn : (iterations - (i + 1)).toNat = n := by omega
    rw [mainLoop, if_pos hi]
    simp only []
    rw [ih (i + 1) _ hn, row_written, List.range_succ_eq_map, List.flatMap_cons,
      List.flatMap_map]
    have key : ∀ k : Nat, i + 1 + (k : Int) + 1 = i + ((k + 1 : Nat) : Int) + 1 := by
      intro k
      push_cast
      ring
    simp only [key, Function.iterate_succ, Function.comp_apply, List.append_assoc, sampleOnce,
      Nat.cast_zero, add_zero, Function.iterate_zero, id_eq, Nat.succ_eq_add_one]

theorem sampleOnce_spec {σ : Type} (K : Kernel σ) (interval : Int)
    (p : List PerfCounter × World σ) :
    List.Forall₂ SameHandle p.1 (sampleOnce K interval p).1 ∧
    ∃ es, (sampleOnce K interval p).2.trace = p.2.trace ++ es ∧
      es.map Event.call = iterationCalls interval p.1 := by
  obtain ⟨es1, h1, c1⟩ := startCounters_trace K p.1 p.2
  obtain ⟨hs, es2, h2, c2⟩ :=
    stopCounters_spec K p.1 (sleep_for K interval (startCounters K p.1 p.2))
  refine ⟨hs, es1 ++ [Event.sleep_for interval] ++ es2, ?_, ?_⟩
  · simp only [sampleOnce, h2]
    simp [sleep_for, h1]
  · simp [iterationCalls, c1, c2, Event.call]

theorem iterate_spec {σ : Type} (K : Kernel σ) (interval : Int) (k : Nat)
    (p : List PerfCounter × World σ) :
    List.Forall₂ SameHandle p.1 ((sampleOnce K interval)^[k] p).1 ∧
    ∃ es, ((sampleOnce K interval)^[k] p).2.trace = p.2.trace ++ es ∧
      es.map Event.call = (List.replicate k (iterationCalls interval p.1)).flatten := by
  induction k with
  | zero => exact ⟨sameHandles_refl _, [], by simp, by simp⟩
  | succ k ih =>
    obtain ⟨hs, es, h1, c1⟩ := ih
    obtain ⟨hs2, es2, h2, c2⟩ := sampleOnce_spec K interval ((sampleOnce K interval)^[k] p)
    rw [Function.iterate_succ_apply']
    refine ⟨sameHandles_trans hs hs2, es ++ es2, ?_, ?_⟩
    · rw [h2, h1, List.append_assoc]
    · rw [List.map_append, c1, c2, sameHandles_iterationCalls interval hs,
        List.replicate_succ', List.flatten_append]
      simp

/-! ## `main` -/

theorem mainWith_eq {σ : Type} (abi : PerfABI) (K : Kernel σ) (interval total_duration : Int)
    (s : σ) (hI : interval ≠ 0) :
    mainWith abi K true interval total_duration s =
      some { status := 0,
             counters := (stateAfter abi K interval s
               (Int.tdiv total_duration interval).toNat).1,
             world := (stateAfter abi K interval s
               (Int.tdiv total_duration interval).toNat).2,
             outfile := some (headerLine (liveNames (stateAfter abi K interval s 0).1) ++
               (List.range (Int.tdiv total_duration interval).toNat).flatMap (fun k =>
                 rowLine (((k : Int) + 1) * interval)
                   (liveValues (stateAfter abi K interval s (k + 1)).1))) } := by
  unfold mainWith
  simp only [Bool.not_eq_true, Bool.true_eq_false, if_false, if_neg hI]
  rw [mainLoop_eq K interval _ (Int.tdiv total_duration interval).toNat 0 _ (by simp),
    header_written]
  simp [stateAfter]

theorem mainWith_not_open {σ : Type} (abi : PerfABI) (K : Kernel σ)
    (interval total_duration : Int) (s : σ) :
    mainWith abi K false interval total_duration s =
      some { status := 1,
             counters := (setupCounters abi K (World.init s)).1,
             world := (setupCounters abi K (World.init s)).2,
             outfile := none } := by
  simp [mainWith]

theorem tdiv_toNat_of_pos (D I : Int) (hI : 0 < I) : (Int.tdiv D I).toNat = (D / I).toNat := by
  rcases le_or_lt 0 D with hD | hD
  · rw [Int.tdiv_eq_ediv hD hI.le]
  · have h1 : Int.tdiv D I ≤ 0 := by
      have : Int.tdiv D I = -(Int.tdiv (-D) I) := by
        rw [Int.neg_tdiv, neg_neg]
      rw [this, Int.tdiv_eq_ediv (by omega) hI.le]
      have : 0 ≤ (-D) / I := Int.ediv_nonneg (by omega) hI.le
      omega
    have h2 : D / I < 0 := Int.ediv_neg' hD hI
    rw [Int.toNat_of_nonpos h1, Int.toNat_of_nonpos h2.le]

theorem stateAfter_sameHandles {σ : Type} (abi : PerfABI) (K : Kernel σ) (interval : Int) (s : σ)
    (k : Nat) :
    List.Forall₂ SameHandle (setupCounters abi K (World.init s)).1
      (stateAfter abi K interval s k).1 :=
  (iterate_spec K interval k (setupCounters abi K (World.init s))).1

theorem setupCounters_value {σ : Type} (abi : PerfABI) (K : Kernel σ) (w : World σ) :
    ∀ c ∈ (setupCounters abi K w).1, c.value = 0 := by
  obtain ⟨outs, hlen, hcs, _⟩ := openCounters_spec K (catalog abi) w
  rw [catalog_length] at hlen
  obtain ⟨o1, o2, o3, o4, o5, rfl⟩ := list_length_five outs hlen
  intro c hc
  unfold setupCounters at hc
  rw [hcs] at hc
  simp only [catalog, List.zipWith_cons_cons, List.zipWith_nil_right, List.mem_cons,
    List.mem_singleton, List.not_mem_nil, or_false] at hc
  rcases hc with h | h | h | h | h <;> rw [h]

/-- C2: for an interval `I > 0` and a duration `D`, with the output file open, `main` returns 0
and the file is the header followed by exactly `floor(D / I)` rows, the row of index `i` (from
1) starting with the elapsed time `i * I`; each elapsed time lies in `(0, D]`.  With the
program's values 5 and 1800 there are 360 rows, with times 5, 10, ..., 1800. -/
theorem mainWith_rows {σ : Type} (abi : PerfABI) (K : Kernel σ) (s : σ)
    (interval total_duration : Int) (hI : 0 < interval) :
    (∃ r, mainWith abi K true interval total_duration s = some r ∧ r.status = 0 ∧
      r.outfile = some (headerLine (liveNames (stateAfter abi K interval s 0).1) ++
        (List.range (total_duration / interval).toNat).flatMap (fun k =>
          rowLine (((k : Int) + 1) * interval)
            (liveValues (stateAfter abi K interval s (k + 1)).1)))) ∧
    (0 ≤ total_duration →
      (((total_duration / interval).toNat : Nat) : Int) = total_duration / interval) ∧
    (∀ k : Nat, k < (total_duration / interval).toNat →
      0 < ((k : Int) + 1) * interval ∧ ((k : Int) + 1) * interval ≤ total_duration) ∧
    (∃ r, main abi K true s = some r ∧ r.status = 0 ∧
      r.outfile = some (headerLine (liveNames (stateAfter abi K 5 s 0).1) ++
        (List.range 360).flatMap (fun k =>
          rowLine (((k : Int) + 1) * 5) (liveValues (stateAfter abi K 5 s (k + 1)).1)))) := by
  refine ⟨?_, ?_, ?_, ?_⟩
  · refine ⟨_, mainWith_eq abi K interval total_duration s hI.ne', rfl, ?_⟩
    simp only [tdiv_toNat_of_pos total_duration interval hI]
  · intro hD
    exact Int.toNat_of_nonneg (Int.ediv_nonneg hD hI.le)
  · intro k hk
    have h1 : ((k : Int) + 1) ≤ total_duration / interval := by omega
    refine ⟨by positivity, ?_⟩
    calc ((k : Int) + 1) * interval ≤ (total_duration / interval) * interval :=
          mul_le_mul_of_nonneg_right h1 hI.le
      _ ≤ total_duration := Int.ediv_mul_le total_duration hI.ne'
  · exact ⟨_, mainWith_eq abi K 5 (30 * 60) s (by decide), rfl, rfl⟩

/-- The row theorem at interval 5 and duration 12, on the kernel whose operations fail. -/
theorem mainWith_rows_witness :
    (0 : Int) < 5 ∧
    ((∃ r, mainWith linuxABI brokenKernel true 5 12 3 = some r ∧ r.status = 0 ∧
      r.outfile = some (headerLine (liveNames (stateAfter linuxABI brokenKernel 5 3 0).1) ++
        (List.range ((12 : Int) / 5).toNat).flatMap (fun k =>
          rowLine (((k : Int) + 1) * 5)
            (liveValues (stateAfter linuxABI brokenKernel 5 3 (k + 1)).1)))) ∧
    ((0 : Int) ≤ 12 → ((((12 : Int) / 5).toNat : Nat) : Int) = 12 / 5) ∧
    (∀ k : Nat, k < ((12 : Int) / 5).toNat →
      0 < ((k : Int) + 1) * 5 ∧ ((k : Int) + 1) * 5 ≤ 12) ∧
    (∃ r, main linuxABI brokenKernel true 3 = some r ∧ r.status = 0 ∧
      r.outfile = some (headerLine (liveNames (stateAfter linuxABI brokenKernel 5 3 0).1) ++
        (List.range 360).flatMap (fun k =>
          rowLine (((k : Int) + 1) * 5)
            (liveValues (stateAfter linuxABI brokenKernel 5 3 (k + 1)).1))))) :=
  ⟨by decide, mainWith_rows linuxABI brokenKernel 3 5 12 (by decide)⟩

theorem liveNames_nil_of_all_dead (cs : List PerfCounter) (h : ∀ c ∈ cs, c.fd = -1) :
    liveNames cs = [] := by
  have : cs.filter live = [] := by
    rw [List.filter_eq_nil_iff]
    intro c hc
    simp [live, h c hc]
  simp [liveNames, this]

theorem stateAfter_live_length {σ : Type} (abi : PerfABI) (K : Kernel σ) (interval : Int) (s : σ)
    (k : Nat) :
    (liveValues (stateAfter abi K interval s k).1).length =
      (liveNames (setupCounters abi K (World.init s)).1).length := by
  rw [liveValues_length, liveNames_length,
    sameHandles_live_fd (stateAfter_sameHandles abi K interval s k)]

/-- C3: whatever the acquisitions gave, the header is `Time(s)` followed by the names of
exactly the counters with `fd ≠ -1`, in registry order, and every row is the elapsed time
followed by one value per live counter, in the same order: the live counters (names and
descriptors) are the same after every iteration, and every row has as many cells as the
header.  When every acquisition failed, the file is the header `Time(s)` and the configured
number of rows, each holding the elapsed time alone. -/
theorem mainWith_columns {σ : Type} (abi : PerfABI) (K : Kernel σ) (s : σ)
    (interval total_duration : Int) (hI : interval ≠ 0) :
    ∃ r, mainWith abi K true interval total_duration s = some r ∧
      r.outfile = some
        (csvLine (Tok.str "Time(s)" ::
            (((setupCounters abi K (World.init s)).1.filter
              (fun c => decide (c.fd ≠ -1))).map PerfCounter.name).map Tok.str) ++
          (List.range (Int.tdiv total_duration interval).toNat).flatMap (fun k =>
            csvLine (Tok.num (((k : Int) + 1) * interval) ::
              (((stateAfter abi K interval s (k + 1)).1.filter
                (fun c => decide (c.fd ≠ -1))).map PerfCounter.value).map Tok.num))) ∧
      (∀ k : Nat,
        ((stateAfter abi K interval s k).1.filter (fun c => decide (c.fd ≠ -1))).map
            (fun c => (c.name, c.fd)) =
          ((setupCounters abi K (World.init s)).1.filter (fun c => decide (c.fd ≠ -1))).map
            (fun c => (c.name, c.fd))) ∧
      (∀ k : Nat,
        (Tok.num (((k : Int) + 1) * interval) ::
            (((stateAfter abi K interval s (k + 1)).1.filter
              (fun c => decide (c.fd ≠ -1))).map PerfCounter.value).map Tok.num).length =
          (Tok.str "Time(s)" ::
            (((setupCounters abi K (World.init s)).1.filter
              (fun c => decide (c.fd ≠ -1))).map PerfCounter.name).map Tok.str).length) ∧
      ((∀ c ∈ (setupCounters abi K (World.init s)).1, c.fd = -1) →
        r.outfile = some
          ([Tok.str "Time(s)", Tok.str "\n"] ++
            (List.range (Int.tdiv total_duration interval).toNat).flatMap (fun k =>
              [Tok.num (((k : Int) + 1) * interval), Tok.str "\n"]))) := by
  refine ⟨_, mainWith_eq abi K interval total_duration s hI, rfl, ?_, ?_, ?_⟩
  · intro k
    have hs := stateAfter_sameHandles abi K interval s k
    have h1 := sameHandles_liveNames hs
    have h2 := sameHandles_live_fd hs
    have hz : ∀ l : List PerfCounter, l.map (fun c => (c.name, c.fd)) =
        List.zip (l.map PerfCounter.name) (l.map PerfCounter.fd) := by
      intro l
      induction l with
      | nil => rfl
      | cons a l ih => simp [ih]
    unfold liveNames at h1
    change ((stateAfter abi K interval s k).1.filter live).map (fun c => (c.name, c.fd)) =
      ((setupCounters abi K (World.init s)).1.filter live).map (fun c => (c.name, c.fd))
    rw [hz, hz, h1, h2]
  · intro k
    have h := stateAfter_live_length abi K interval s (k + 1)
    unfold liveValues liveNames at h
    simp only [List.length_cons, List.length_map] at h ⊢
    change ((stateAfter abi K interval s (k + 1)).1.filter live).length + 1 =
      ((setupCounters abi K (World.init s)).1.filter live).length + 1
    rw [h]
  · intro hdead
    have h0 : liveNames (stateAfter abi K interval s 0).1 = [] :=
      liveNames_nil_of_all_dead _ hdead
    have hk : ∀ k, liveValues (stateAfter abi K interval s k).1 = [] := by
      intro k
      have h := stateAfter_live_length abi K interval s k
      rw [liveNames_nil_of_all_dead _ hdead] at h
      exact List.length_eq_zero.mp h
    simp only [h0, hk]
    rfl

/-- The column theorem on a kernel that refuses every open: two rows, each the elapsed time
alone. -/
theorem mainWith_columns_witness :
    (5 : Int) ≠ 0 ∧
    ∃ r, mainWith linuxABI (synthKernel (fun _ => 7)) true 5 10 (synthInit []) = some r ∧
      r.outfile = some
        ([Tok.str "Time(s)", Tok.str "\n"] ++
          (List.range (Int.tdiv 10 5).toNat).flatMap (fun k =>
            [Tok.num (((k : Int) + 1) * 5), Tok.str "\n"])) := by
  refine ⟨by decide, ?_⟩
  obtain ⟨r, h1, _, _, _, h5⟩ :=
    mainWith_columns linuxABI (synthKernel (fun _ => 7)) (synthInit []) 5 10 (by decide)
  exact ⟨r, h1, h5 (by decide)⟩

/-! ## Unavailable counters are skipped -/

theorem filter_live_idem (cs : List PerfCounter) : (cs.filter live).filter live = cs.filter live := by
  simp [List.filter_filter]

theorem startCalls_target (cs : List PerfCounter) :
    ∀ c ∈ startCalls cs, c.target ≠ some (-1) := by
  intro c hc
  simp only [startCalls, List.mem_flatMap, List.mem_filter, List.mem_cons, List.mem_singleton,
    List.not_mem_nil, or_false] at hc
  obtain ⟨a, ⟨_, ha⟩, h | h⟩ := hc <;>
  · subst h
    simpa [Call.target, live] using ha

theorem stopCalls_target (cs : List PerfCounter) :
    ∀ c ∈ stopCalls cs, c.target ≠ some (-1) := by
  intro c hc
  simp only [stopCalls, List.mem_flatMap, List.mem_filter, List.mem_cons, List.mem_singleton,
    List.not_mem_nil, or_false] at hc
  obtain ⟨a, ⟨_, ha⟩, h | h⟩ := hc <;>
  · subst h
    simpa [Call.target, live] using ha

theorem sameHandles_fd_dead {cs cs1 : List PerfCounter} (h : List.Forall₂ SameHandle cs cs1) :
    List.Forall₂ (fun c c1 => c1.fd = c.fd ∧ (c.fd = -1 → c1 = c)) cs cs1 :=
  h.imp (fun _ _ hc => ⟨hc.2.2.2.1, hc.2.2.2.2⟩)

/-- C5: for every list of counters, `startCounters` and `stopCounters` issue kernel calls for
the live counters alone (the calls are those of the list filtered by `fd ≠ -1`, and none
targets descriptor -1); `stopCounters` returns the counters with every `fd` unchanged and
every counter with `fd = -1` unchanged altogether (`startCounters` takes the counters by const
reference and returns none).  Hence after any number of iterations of the run the descriptors
are those `setupCounters` stored, and a counter with `fd = -1` still has value 0. -/
theorem startStop_skip_unavailable {σ : Type} (K : Kernel σ) (cs : List PerfCounter)
    (w : World σ) :
    (∃ es, (startCounters K cs w).trace = w.trace ++ es ∧
      es.map Event.call = startCalls (cs.filter (fun c => decide (c.fd ≠ -1))) ∧
      ∀ e ∈ es, e.call.target ≠ some (-1)) ∧
    (∃ es, (stopCounters K cs w).2.trace = w.trace ++ es ∧
      es.map Event.call = stopCalls (cs.filter (fun c => decide (c.fd ≠ -1))) ∧
      ∀ e ∈ es, e.call.target ≠ some (-1)) ∧
    (stopCounters K cs w).1.map PerfCounter.fd = cs.map PerfCounter.fd ∧
    List.Forall₂ (fun c c1 => c1.fd = c.fd ∧ (c.fd = -1 → c1 = c)) cs (stopCounters K cs w).1 ∧
    (∀ (abi : PerfABI) (interval : Int) (s : σ) (k : Nat),
      (stateAfter abi K interval s k).1.map PerfCounter.fd =
        (setupCounters abi K (World.init s)).1.map PerfCounter.fd ∧
      (∀ c ∈ (stateAfter abi K interval s k).1, c.fd = -1 → c.value = 0)) := by
  obtain ⟨es1, h1, c1⟩ := startCounters_trace K cs w
  obtain ⟨hs, es2, h2, c2⟩ := stopCounters_spec K cs w
  refine ⟨⟨es1, h1, ?_, ?_⟩, ⟨es2, h2, ?_, ?_⟩, sameHandles_map_fd hs, sameHandles_fd_dead hs, ?_⟩
  · rw [c1]
    unfold startCalls
    exact congrArg (fun l => List.flatMap l _) (filter_live_idem cs).symm
  · intro e he
    exact startCalls_target cs _ (c1 ▸ List.mem_map_of_mem Event.call he)
  · rw [c2]
    unfold stopCalls
    exact congrArg (fun l => List.flatMap l _) (filter_live_idem cs).symm
  · intro e he
    exact stopCalls_target cs _ (c2 ▸ List.mem_map_of_mem Event.call he)
  · intro abi interval s k
    have hk := stateAfter_sameHandles abi K interval s k
    refine ⟨sameHandles_map_fd hk, ?_⟩
    intro c hc hfd
    have hmem : c ∈ (stateAfter abi K interval s k).1.filter (fun c => !live c) := by
      rw [List.mem_filter]
      exact ⟨hc, by simp [live, hfd]⟩
    rw [sameHandles_dead hk] at hmem
    exact setupCounters_value abi K _ c (List.mem_filter.mp hmem).1

/-- The skipping theorem on the synthetic source with the second and fourth open refused,
after two iterations. -/
theorem startStop_skip_unavailable_witness :
    (stateAfter linuxABI (synthKernel (fun _ => 7)) 5
        (synthInit [some 3, none, some 4, none, some 5]) 2).1.map PerfCounter.fd =
      (setupCounters linuxABI (synthKernel (fun _ => 7))
        (World.init (synthInit [some 3, none, some 4, none, some 5]))).1.map PerfCounter.fd ∧
    (∀ c ∈ (stateAfter linuxABI (synthKernel (fun _ => 7)) 5
        (synthInit [some 3, none, some 4, none, some 5]) 2).1, c.fd = -1 → c.value = 0) :=
  (startStop_skip_unavailable (synthKernel (fun _ => 7)) []
    (World.init (synthInit []))).2.2.2.2 linuxABI 5
      (synthInit [some 3, none, some 4, none, some 5]) 2

/-! ## The shape of the trace -/

theorem countP_isSleep_startCalls (cs : List PerfCounter) :
    (startCalls cs).countP Call.isSleep = 0 := by
  rw [List.countP_eq_zero]
  intro c hc
  simp only [startCalls, List.mem_flatMap, List.mem_cons, List.mem_singleton,
    List.not_mem_nil, or_false] at hc
  obtain ⟨a, _, h | h⟩ := hc <;> simp [h, Call.isSleep]

theorem countP_isSleep_stopCalls (cs : List PerfCounter) :
    (stopCalls cs).countP Call.isSleep = 0 := by
  rw [List.countP_eq_zero]
  intro c hc
  simp only [stopCalls, List.mem_flatMap, List.mem_cons, List.mem_singleton,
    List.not_mem_nil, or_false] at hc
  obtain ⟨a, _, h | h⟩ := hc <;> simp [h, Call.isSleep]

theorem countP_isSleep_iterations (interval : Int) (cs : List PerfCounter) (n : Nat) :
    ((List.replicate n (iterationCalls interval cs)).flatten).countP Call.isSleep = n := by
  induction n with
  | zero => rfl
  | succ n ih =>
    rw [List.replicate_succ, List.flatten_cons, List.countP_append, ih]
    simp [iterationCalls, List.countP_append, countP_isSleep_startCalls,
      countP_isSleep_stopCalls, Call.isSleep, List.countP_cons]
    omega

theorem setupCounters_calls {σ : Type} (abi : PerfABI) (K : Kernel σ) (s : σ) :
    (setupCounters abi K (World.init s)).2.trace.map Event.call =
      (catalog abi).map openCall := by
  obtain ⟨outs, hlen, _, htr⟩ := openCounters_spec K (catalog abi) (World.init s)
  rw [catalog_length] at hlen
  obtain ⟨o1, o2, o3, o4, o5, rfl⟩ := list_length_five outs hlen
  unfold setupCounters
  rw [htr]
  rfl

theorem stateAfter_calls {σ : Type} (abi : PerfABI) (K : Kernel σ) (interval : Int) (s : σ)
    (k : Nat) :
    (stateAfter abi K interval s k).2.trace.map Event.call =
      (catalog abi).map openCall ++
        (List.replicate k
          (iterationCalls interval (setupCounters abi K (World.init s)).1)).flatten := by
  obtain ⟨_, es, h1, h2⟩ := iterate_spec K interval k (setupCounters abi K (World.init s))
  unfold stateAfter
  rw [h1, List.map_append, h2, setupCounters_calls]

/-- C6: the calls of a run are the five opens followed by one block per iteration, and each
block is: reset then enable for each live counter, in registry order; one sleep of the
interval; disable then read for each live counter, in registry order.  The blocks follow one
another without overlap, the trace holds exactly one sleep per iteration, and the file holds
one row per iteration. -/
theorem main_trace_shape {σ : Type} (abi : PerfABI) (K : Kernel σ) (s : σ)
    (interval total_duration : Int) (hI : interval ≠ 0) :
    ∃ r, mainWith abi K true interval total_duration s = some r ∧
      r.world.trace.map Event.call =
        (catalog abi).map openCall ++
          (List.replicate (Int.tdiv total_duration interval).toNat
            (((setupCounters abi K (World.init s)).1.filter
                (fun c => decide (c.fd ≠ -1))).flatMap (fun c =>
                [Call.ioctl c.fd IoctlRequest.PERF_EVENT_IOC_RESET,
                 Call.ioctl c.fd IoctlRequest.PERF_EVENT_IOC_ENABLE]) ++
              [Call.sleep_for interval] ++
              ((setupCounters abi K (World.init s)).1.filter
                (fun c => decide (c.fd ≠ -1))).flatMap (fun c =>
                [Call.ioctl c.fd IoctlRequest.PERF_EVENT_IOC_DISABLE,
                 Call.read c.fd]))).flatten ∧
      (r.world.trace.map Event.call).countP Call.isSleep =
        (Int.tdiv total_duration interval).toNat ∧
      r.outfile = some (headerLine (liveNames (stateAfter abi K interval s 0).1) ++
        (List.range (Int.tdiv total_duration interval).toNat).flatMap (fun k =>
          rowLine (((k : Int) + 1) * interval)
            (liveValues (stateAfter abi K interval s (k + 1)).1))) := by
  refine ⟨_, mainWith_eq abi K interval total_duration s hI, ?_, ?_, rfl⟩
  · exact stateAfter_calls abi K interval s _
  · simp only []
    rw [stateAfter_calls, List.countP_append, countP_isSleep_iterations]
    simp [catalog, openCall, Call.isSleep, List.countP_cons]

/-- The trace theorem at interval 5 and duration 10: two sleeps. -/
theorem main_trace_shape_witness :
    (5 : Int) ≠ 0 ∧
    ∃ r, mainWith linuxABI brokenKernel true 5 10 3 = some r ∧
      (r.world.trace.map Event.call).countP Call.isSleep = (Int.tdiv 10 5).toNat := by
  refine ⟨by decide, ?_⟩
  obtain ⟨r, h1, _, h3, _⟩ := main_trace_shape linuxABI brokenKernel 3 5 10 (by decide)
  exact ⟨r, h1, h3⟩

/-! ## The synthetic counter source: interval deltas -/

theorem stopCounters_cons_dead {σ : Type} (K : Kernel σ) (c : PerfCounter)
    (cs : List PerfCounter) (w : World σ) (hc : c.fd = -1) :
    stopCounters K (c :: cs) w = (c :: (stopCounters K cs w).1, (stopCounters K cs w).2) := by
  simp [stopCounters, hc]

theorem stopCounters_cons_live {σ : Type} (K : Kernel σ) (c : PerfCounter)
    (cs : List PerfCounter) (w : World σ) (hc : c.fd ≠ -1) :
    stopCounters K (c :: cs) w =
      ((match (read K c.fd (ioctl K c.fd IoctlRequest.PERF_EVENT_IOC_DISABLE w).2).1 with
          | some v => { c with value := v }
          | none => c) ::
        (stopCounters K cs
          (read K c.fd (ioctl K c.fd IoctlRequest.PERF_EVENT_IOC_DISABLE w).2).2).1,
       (stopCounters K cs
          (read K c.fd (ioctl K c.fd IoctlRequest.PERF_EVENT_IOC_DISABLE w).2).2).2) := by
  simp [stopCounters, hc]

theorem liveValues_cons_dead (c : PerfCounter) (cs : List PerfCounter) (hc : c.fd = -1) :
    liveValues (c :: cs) = liveValues cs := by
  simp [liveValues, live, hc]

theorem liveValues_cons_live (c : PerfCounter) (cs : List PerfCounter) (hc : c.fd ≠ -1) :
    liveValues (c :: cs) = c.value :: liveValues cs := by
  simp [liveValues, live, hc]

theorem synth_read (rate : Int → Nat) (fd : Int) (w : World SynthState) :
    (read (synthKernel rate) fd w).1 = some (toInt64 (w.kernel.count fd)) ∧
      (read (synthKernel rate) fd w).2.kernel = w.kernel := ⟨rfl, rfl⟩

theorem synth_disable_count (rate : Int → Nat) (fd : Int) (w : World SynthState) :
    (ioctl (synthKernel rate) fd IoctlRequest.PERF_EVENT_IOC_DISABLE w).2.kernel.count =
      w.kernel.count := rfl

theorem synth_start_preserve (rate : Int → Nat) (fd : Int) (cs : List PerfCounter)
    (w : World SynthState) (h : w.kernel.count fd = 0 ∧ w.kernel.enabled fd = true) :
    (startCounters (synthKernel rate) cs w).kernel.count fd = 0 ∧
      (startCounters (synthKernel rate) cs w).kernel.enabled fd = true := by
  induction cs generalizing w with
  | nil => exact h
  | cons c cs ih =>
    by_cases hc : c.fd = -1
    · simpa [startCounters, hc] using ih w h
    · simp only [startCounters, hc, ne_eq, not_false_eq_true, if_true]
      apply ih
      by_cases hfd : fd = c.fd
      · subst hfd
        simp [ioctl, synthKernel]
      · simp [ioctl, synthKernel, Function.update_noteq hfd, h.1, h.2]

theorem synth_start_live (rate : Int → Nat) (cs : List PerfCounter) (w : World SynthState) :
    ∀ c ∈ cs, c.fd ≠ -1 →
      (startCounters (synthKernel rate) cs w).kernel.count c.fd = 0 ∧
        (startCounters (synthKernel rate) cs w).kernel.enabled c.fd = true := by
  induction cs generalizing w with
  | nil =>
    intro c hc
    cases hc
  | cons a cs ih =>
    intro c hc hlive
    rcases List.mem_cons.mp hc with rfl | hmem
    · simp only [startCounters, hlive, ne_eq, not_false_eq_true, if_true]
      apply synth_start_preserve
      simp [ioctl, synthKernel]
    · simp only [startCounters]
      exact ih _ c hmem hlive

theorem synth_stop_values (rate : Int → Nat) (N : Int → Nat) (cs : List PerfCounter)
    (w : World SynthState) (h : ∀ c ∈ cs, c.fd ≠ -1 → w.kernel.count c.fd = N c.fd) :
    liveValues (stopCounters (synthKernel rate) cs w).1 =
      ((cs.filter live).map PerfCounter.fd).map (fun fd => toInt64 (N fd)) := by
  induction cs generalizing w with
  | nil => simp [stopCounters, liveValues]
  | cons c cs ih =>
    by_cases hc : c.fd = -1
    · rw [stopCounters_cons_dead _ _ _ _ hc, liveValues_cons_dead _ _ hc,
        ih w (fun a ha => h a (List.mem_cons_of_mem c ha))]
      simp [live, hc]
    · have hcnt : ∀ a ∈ cs, a.fd ≠ -1 → (read (synthKernel rate) c.fd
          (ioctl (synthKernel rate) c.fd IoctlRequest.PERF_EVENT_IOC_DISABLE w).2).2.kernel.count
            a.fd = N a.fd := by
        intro a ha hfd
        rw [(synth_read rate c.fd _).2, synth_disable_count]
        exact h a (List.mem_cons_of_mem c ha) hfd
      have hfd : ∀ x : Option Int, (match x with
          | some v => ({ c with value := v } : PerfCounter)
          | none => c).fd ≠ -1 := by
        intro x
        cases x <;> exact hc
      rw [stopCounters_cons_live _ _ _ _ hc, liveValues_cons_live _ _ (hfd _), ih _ hcnt,
        (synth_read rate c.fd _).1, synth_disable_count, h c (List.mem_cons_self c cs) hc]
      simp [live, hc]

theorem synth_sleep_count (rate : Int → Nat) (interval : Int) (w : World SynthState)
    (fd : Int) :
    (sleep_for (synthKernel rate) interval w).kernel.count fd =
      if w.kernel.enabled fd then w.kernel.count fd + rate fd * interval.toNat
      else w.kernel.count fd := rfl

theorem synth_sampleOnce (rate : Int → Nat) (interval : Int)
    (p : List PerfCounter × World SynthState) :
    liveValues (sampleOnce (synthKernel rate) interval p).1 =
      ((p.1.filter live).map PerfCounter.fd).map (fun fd => toInt64 (rate fd * interval.toNat)) := by
  unfold sampleOnce
  apply synth_stop_values rate (fun fd => rate fd * interval.toNat)
  intro c hmem hfd
  obtain ⟨h0, h1⟩ := synth_start_live rate p.1 p.2 c hmem hfd
  rw [synth_sleep_count, h0, h1, if_pos rfl, Nat.zero_add]

theorem synth_stateAfter (abi : PerfABI) (rate : Int → Nat) (interval : Int) (s : SynthState)
    (k : Nat) :
    liveValues (stateAfter abi (synthKernel rate) interval s (k + 1)).1 =
      ((setupCounters abi (synthKernel rate) (World.init s)).1.filter live).map
        (fun c => toInt64 (rate c.fd * interval.toNat)) := by
  unfold stateAfter
  rw [Function.iterate_succ_apply', synth_sampleOnce,
    sameHandles_live_fd (iterate_spec (synthKernel rate) interval k _).1, List.map_map]
  rfl

theorem toInt64_of_lt (n : Nat) (h : n < 2 ^ 63) : toInt64 n = (n : Int) := by
  unfold toInt64
  omega

/-- C4: over the synthetic counter source (reset sets the count to 0, an enabled counter `fd`
grows by `rate fd` per second, read returns the count as the 64-bit value stored), every row of
a run with interval `I > 0` holds, for every live counter, the value `rate fd * I`: the same in
every iteration, equal to `rate fd * I` whenever that fits a `long long`, and different from
the cumulative `rate fd * i * I` for every iteration index `i ≥ 2` of a counter that counts. -/
theorem synth_interval_delta (abi : PerfABI) (rate : Int → Nat) (script : List (Option Nat))
    (interval total_duration : Int) (hI : 0 < interval) :
    (∃ r, mainWith abi (synthKernel rate) true interval total_duration (synthInit script)
        = some r ∧
      r.outfile = some
        (headerLine (liveNames
            (setupCounters abi (synthKernel rate) (World.init (synthInit script))).1) ++
          (List.range (total_duration / interval).toNat).flatMap (fun k =>
            rowLine (((k : Int) + 1) * interval)
              (((setupCounters abi (synthKernel rate) (World.init (synthInit script))).1.filter
                (fun c => decide (c.fd ≠ -1))).map
                  (fun c => toInt64 (rate c.fd * interval.toNat)))))) ∧
    (∀ k : Nat,
      liveValues (stateAfter abi (synthKernel rate) interval (synthInit script) (k + 1)).1 =
        ((setupCounters abi (synthKernel rate) (World.init (synthInit script))).1.filter
          (fun c => decide (c.fd ≠ -1))).map (fun c => toInt64 (rate c.fd * interval.toNat))) ∧
    (∀ fd : Int, (rate fd : Int) * interval < 2 ^ 63 →
      toInt64 (rate fd * interval.toNat) = (rate fd : Int) * interval) ∧
    (∀ (fd : Int) (i : Int), 2 ≤ i → 0 < rate fd → (rate fd : Int) * interval < 2 ^ 63 →
      toInt64 (rate fd * interval.toNat) ≠ (rate fd : Int) * i * interval) := by
  have hconv : ∀ fd : Int, (rate fd : Int) * interval < 2 ^ 63 →
      toInt64 (rate fd * interval.toNat) = (rate fd : Int) * interval := by
    intro fd h
    have hcast : ((rate fd * interval.toNat : Nat) : Int) = (rate fd : Int) * interval := by
      rw [Nat.cast_mul, Int.toNat_of_nonneg hI.le]
    rw [toInt64_of_lt _ (by omega), hcast]
  refine ⟨⟨_, mainWith_eq abi (synthKernel rate) interval total_duration (synthInit script)
    hI.ne', ?_⟩, fun k => synth_stateAfter abi rate interval _ k, hconv, ?_⟩
  · simp only [tdiv_toNat_of_pos total_duration interval hI, synth_stateAfter]
    rfl
  · intro fd i hi hr hlt
    rw [hconv fd hlt]
    intro heq
    have hpos : (0 : Int) < (rate fd : Int) * interval :=
      mul_pos (by exact_mod_cast hr) hI
    have : (rate fd : Int) * i * interval = i * ((rate fd : Int) * interval) := by ring
    rw [this] at heq
    nlinarith

/-- The delta theorem at rate 1000 per second, interval 5, duration 15, the second open
refused: three rows of 5000. -/
theorem synth_interval_delta_witness :
    (0 : Int) < 5 ∧
    ∃ r, mainWith linuxABI (synthKernel (fun _ => 1000)) true 5 15
        (synthInit [some 3, none, some 4, some 5, some 6]) = some r ∧
      r.outfile = some
        (headerLine ["L1D_CACHE_REFILL", "INSTRUCTIONS", "BRANCH_MISPREDICTS", "BUS_ACCESS"] ++
          (List.range 3).flatMap (fun k =>
            rowLine (((k : Int) + 1) * 5) [5000, 5000, 5000, 5000])) := by
  refine ⟨by decide, ?_⟩
  obtain ⟨⟨r, h1, h2⟩, _⟩ := synth_interval_delta linuxABI (fun _ => 1000)
    [some 3, none, some 4, some 5, some 6] 5 15 (by decide)
  exact ⟨r, h1, h2⟩

/-! ## Failures of `ioctl` and `read` are ignored -/

theorem stopCounters_reads {σ : Type} (K : Kernel σ) (cs : List PerfCounter) (w : World σ) :
    ∃ es, (stopCounters K cs w).2.trace = w.trace ++ es ∧
      (readResults es).length = (liveValues cs).length ∧
      liveValues (stopCounters K cs w).1 =
        List.zipWith (fun old ret => ret.getD old) (liveValues cs) (readResults es) := by
  induction cs generalizing w with
  | nil => exact ⟨[], by simp [stopCounters], rfl, rfl⟩
  | cons c cs ih =>
    by_cases hc : c.fd = -1
    · obtain ⟨es, h1, h2, h3⟩ := ih w
      refine ⟨es, ?_, ?_, ?_⟩
      · rw [stopCounters_cons_dead _ _ _ _ hc]
        exact h1
      · rw [liveValues_cons_dead _ _ hc]
        exact h2
      · rw [stopCounters_cons_dead _ _ _ _ hc, liveValues_cons_dead _ _ hc,
          liveValues_cons_dead _ _ hc]
        exact h3
    · obtain ⟨es, h1, h2, h3⟩ := ih
        (read K c.fd (ioctl K c.fd IoctlRequest.PERF_EVENT_IOC_DISABLE w).2).2
      have hfd : ∀ x : Option Int, (match x with
          | some v => ({ c with value := v } : PerfCounter)
          | none => c).fd ≠ -1 := by
        intro x
        cases x <;> exact hc
      have hval : ∀ x : Option Int, (match x with
          | some v => ({ c with value := v } : PerfCounter)
          | none => c).value = x.getD c.value := by
        intro x
        cases x <;> rfl
      refine ⟨Event.ioctl c.fd IoctlRequest.PERF_EVENT_IOC_DISABLE
          (K.ioctl w.kernel c.fd IoctlRequest.PERF_EVENT_IOC_DISABLE).1 ::
        Event.read c.fd
          (K.read (K.ioctl w.kernel c.fd IoctlRequest.PERF_EVENT_IOC_DISABLE).2 c.fd).1 :: es,
        ?_, ?_, ?_⟩
      · rw [stopCounters_cons_live _ _ _ _ hc, h1]
        simp [ioctl, read]
      · rw [liveValues_cons_live _ _ hc]
        simp [readResults, List.filterMap_cons] at h2 ⊢
        exact h2
      · rw [stopCounters_cons_live _ _ _ _ hc, liveValues_cons_live _ _ (hfd _),
          liveValues_cons_live _ _ hc, h3, hval]
        simp [readResults, List.filterMap_cons, read]
        rfl

theorem stopCounters_read_fails {σ : Type} (K : Kernel σ)
    (hread : ∀ st fd, (K.read st fd).1 = none) (cs : List PerfCounter) (w : World σ) :
    (stopCounters K cs w).1 = cs := by
  induction cs generalizing w with
  | nil => rfl
  | cons c cs ih =>
    by_cases hc : c.fd = -1
    · rw [stopCounters_cons_dead _ _ _ _ hc, ih]
    · rw [stopCounters_cons_live _ _ _ _ hc, ih]
      have : (read K c.fd (ioctl K c.fd IoctlRequest.PERF_EVENT_IOC_DISABLE w).2).1 = none :=
        hread _ _
      rw [this]

theorem iterate_read_fails {σ : Type} (K : Kernel σ)
    (hread : ∀ st fd, (K.read st fd).1 = none) (interval : Int) (k : Nat)
    (p : List PerfCounter × World σ) :
    ((sampleOnce K interval)^[k] p).1 = p.1 := by
  induction k with
  | zero => rfl
  | succ k ih =>
    rw [Function.iterate_succ_apply']
    have h : ∀ q : List PerfCounter × World σ, (sampleOnce K interval q).1 = q.1 := by
      intro q
      unfold sampleOnce
      exact stopCounters_read_fails K hread _ _
    rw [h, ih]

theorem stateAfter_trace_from_first {σ : Type} (abi : PerfABI) (K : Kernel σ) (interval : Int)
    (s : σ) (k : Nat) :
    ∃ es, (stateAfter abi K interval s (k + 1)).2.trace =
      (stateAfter abi K interval s 1).2.trace ++ es := by
  obtain ⟨_, es, h, _⟩ := iterate_spec K interval k
    (sampleOnce K interval (setupCounters abi K (World.init s)))
  exact ⟨es, by
    unfold stateAfter
    rw [Function.iterate_succ_apply]
    exact h⟩

theorem broken_setup :
    setupCounters linuxABI brokenKernel (World.init 3) =
      ([{ name := "L1D_CACHE_REFILL", type := 3, config := 65536, fd := 3 },
        { name := "L1D_CACHE_ACCESS", type := 3, config := 0, fd := 4 },
        { name := "INSTRUCTIONS", type := 0, config := 1, fd := 5 },
        { name := "BRANCH_MISPREDICTS", type := 0, config := 5, fd := 6 },
        { name := "BUS_ACCESS", type := 0, config := 6, fd := 7 }],
       { kernel := 8,
         trace := [Event.perf_event_open ⟨3, 65536, 1, 0, 1⟩ 0 (-1) (-1) 0 (some 3),
                   Event.perf_event_open ⟨3, 0, 1, 0, 1⟩ 0 (-1) (-1) 0 (some 4),
                   Event.perf_event_open ⟨0, 1, 1, 0, 1⟩ 0 (-1) (-1) 0 (some 5),
                   Event.perf_event_open ⟨0, 5, 1, 0, 1⟩ 0 (-1) (-1) 0 (some 6),
                   Event.perf_event_open ⟨0, 6, 1, 0, 1⟩ 0 (-1) (-1) 0 (some 7)] }) := by
  rfl

theorem broken_stateAfter (k : Nat) :
    (stateAfter linuxABI brokenKernel 5 3 k).1 =
      (setupCounters linuxABI brokenKernel (World.init 3)).1 :=
  iterate_read_fails brokenKernel (fun _ _ => rfl) 5 k _

theorem main_iterations : (Int.tdiv (30 * 60) 5).toNat = 360 := by decide

theorem main_eq {σ : Type} (abi : PerfABI) (K : Kernel σ) (s : σ) :
    main abi K true s =
      some { status := 0,
             counters := (stateAfter abi K 5 s 360).1,
             world := (stateAfter abi K 5 s 360).2,
             outfile := some (headerLine (liveNames (stateAfter abi K 5 s 0).1) ++
               (List.range 360).flatMap (fun k =>
                 rowLine (((k : Int) + 1) * 5) (liveValues (stateAfter abi K 5 s (k + 1)).1))) } := by
  unfold main
  rw [mainWith_eq abi K 5 (30 * 60) s (by decide), main_iterations]

theorem stateAfter_trace_extends {σ : Type} (abi : PerfABI) (K : Kernel σ) (interval : Int)
    (s : σ) (k : Nat) (hk : 1 ≤ k) :
    ∃ es, (stateAfter abi K interval s k).2.trace =
      (stateAfter abi K interval s 1).2.trace ++ es := by
  obtain ⟨j, rfl⟩ : ∃ j, k = j + 1 := ⟨k - 1, by omega⟩
  exact stateAfter_trace_from_first abi K interval s j

theorem broken_first_trace :
    (stateAfter linuxABI brokenKernel 5 3 1).2.trace.take 6 =
      [Event.perf_event_open ⟨3, 65536, 1, 0, 1⟩ 0 (-1) (-1) 0 (some 3),
       Event.perf_event_open ⟨3, 0, 1, 0, 1⟩ 0 (-1) (-1) 0 (some 4),
       Event.perf_event_open ⟨0, 1, 1, 0, 1⟩ 0 (-1) (-1) 0 (some 5),
       Event.perf_event_open ⟨0, 5, 1, 0, 1⟩ 0 (-1) (-1) 0 (some 6),
       Event.perf_event_open ⟨0, 6, 1, 0, 1⟩ 0 (-1) (-1) 0 (some 7),
       Event.ioctl 3 IoctlRequest.PERF_EVENT_IOC_RESET (-1)] ∧
    6 ≤ (stateAfter linuxABI brokenKernel 5 3 1).2.trace.length := by
  decide

theorem broken_trace_take :
    (stateAfter linuxABI brokenKernel 5 3 360).2.trace.take 6 =
      [Event.perf_event_open ⟨3, 65536, 1, 0, 1⟩ 0 (-1) (-1) 0 (some 3),
       Event.perf_event_open ⟨3, 0, 1, 0, 1⟩ 0 (-1) (-1) 0 (some 4),
       Event.perf_event_open ⟨0, 1, 1, 0, 1⟩ 0 (-1) (-1) 0 (some 5),
       Event.perf_event_open ⟨0, 5, 1, 0, 1⟩ 0 (-1) (-1) 0 (some 6),
       Event.perf_event_open ⟨0, 6, 1, 0, 1⟩ 0 (-1) (-1) 0 (some 7),
       Event.ioctl 3 IoctlRequest.PERF_EVENT_IOC_RESET (-1)] := by
  obtain ⟨es, h⟩ := stateAfter_trace_extends linuxABI brokenKernel 5 3 360 (by decide)
  rw [h, List.take_append_of_le_length broken_first_trace.2]
  exact broken_first_trace.1

theorem broken_outfile :
    headerLine (liveNames (stateAfter linuxABI brokenKernel 5 3 0).1) ++
        (List.range 360).flatMap (fun k =>
          rowLine (((k : Int) + 1) * 5)
            (liveValues (stateAfter linuxABI brokenKernel 5 3 (k + 1)).1)) =
      headerLine ["L1D_CACHE_REFILL", "L1D_CACHE_ACCESS", "INSTRUCTIONS",
          "BRANCH_MISPREDICTS", "BUS_ACCESS"] ++
        (List.range 360).flatMap (fun k => rowLine (((k : Int) + 1) * 5) [0, 0, 0, 0, 0]) := by
  simp only [broken_stateAfter, broken_setup]
  rfl

/-- C7 (counterexample): on a kernel where every open succeeds and every later `ioctl` and
`read` fails, the first operation of iteration 1 (the reset of descriptor 3) fails, yet `main`
returns 0 and the file holds all 360 rows, each with the value 0 for every counter. -/
theorem broken_run_emits_all_rows :
    ∃ r, main linuxABI brokenKernel true 3 = some r ∧ r.status = 0 ∧
      r.world.trace.take 6 =
        [Event.perf_event_open ⟨3, 65536, 1, 0, 1⟩ 0 (-1) (-1) 0 (some 3),
         Event.perf_event_open ⟨3, 0, 1, 0, 1⟩ 0 (-1) (-1) 0 (some 4),
         Event.perf_event_open ⟨0, 1, 1, 0, 1⟩ 0 (-1) (-1) 0 (some 5),
         Event.perf_event_open ⟨0, 5, 1, 0, 1⟩ 0 (-1) (-1) 0 (some 6),
         Event.perf_event_open ⟨0, 6, 1, 0, 1⟩ 0 (-1) (-1) 0 (some 7),
         Event.ioctl 3 IoctlRequest.PERF_EVENT_IOC_RESET (-1)] ∧
      r.outfile = some
        (headerLine ["L1D_CACHE_REFILL", "L1D_CACHE_ACCESS", "INSTRUCTIONS",
            "BRANCH_MISPREDICTS", "BUS_ACCESS"] ++
          (List.range 360).flatMap (fun k => rowLine (((k : Int) + 1) * 5) [0, 0, 0, 0, 0])) := by
  refine ⟨_, main_eq linuxABI brokenKernel 3, rfl, ?_, ?_⟩
  · dsimp only
    exact broken_trace_take
  · dsimp only
    exact congrArg some broken_outfile

/-- C7 (amended): a failing `ioctl` or `read` does not end the run.  Whatever the kernel
answers, `main` returns 0 and writes all `floor(D / I)` rows; after `stopCounters` the value of
each live counter is what its `read` stored, or its previous value when the `read` failed; and
on a kernel whose every `read` fails the counters never change, so every value is still 0. -/
theorem failures_ignored {σ : Type} (abi : PerfABI) (K : Kernel σ) (s : σ)
    (interval total_duration : Int) (hI : 0 < interval) :
    (∃ r, mainWith abi K true interval total_duration s = some r ∧ r.status = 0 ∧
      r.outfile = some (headerLine (liveNames (stateAfter abi K interval s 0).1) ++
        (List.range (total_duration / interval).toNat).flatMap (fun k =>
          rowLine (((k : Int) + 1) * interval)
            (liveValues (stateAfter abi K interval s (k + 1)).1)))) ∧
    (∀ (cs : List PerfCounter) (w : World σ),
      ∃ es, (stopCounters K cs w).2.trace = w.trace ++ es ∧
        (readResults es).length = (liveValues cs).length ∧
        liveValues (stopCounters K cs w).1 =
          List.zipWith (fun old ret => ret.getD old) (liveValues cs) (readResults es)) ∧
    ((∀ st fd, (K.read st fd).1 = none) →
      ∀ k : Nat,
        (stateAfter abi K interval s k).1 = (setupCounters abi K (World.init s)).1 ∧
        ∀ c ∈ (stateAfter abi K interval s k).1, c.value = 0) := by
  refine ⟨⟨_, mainWith_eq abi K interval total_duration s hI.ne', rfl, ?_⟩,
    fun cs w => stopCounters_reads K cs w, ?_⟩
  · dsimp only
    rw [tdiv_toNat_of_pos total_duration interval hI]
  · intro hread k
    have h : (stateAfter abi K interval s k).1 = (setupCounters abi K (World.init s)).1 :=
      iterate_read_fails K hread interval k _
    refine ⟨h, ?_⟩
    rw [h]
    exact setupCounters_value abi K _

/-- The amended failure theorem on the kernel whose every read fails: all values stay 0. -/
theorem failures_ignored_witness :
    (0 : Int) < 5 ∧
    (∀ st fd, (brokenKernel.read st fd).1 = none) ∧
    ∀ k : Nat, ∀ c ∈ (stateAfter linuxABI brokenKernel 5 3 k).1, c.value = 0 :=
  ⟨by decide, fun _ _ => rfl, fun k =>
    ((failures_ignored linuxABI brokenKernel 3 5 10 (by decide)).2.2 (fun _ _ => rfl) k).2⟩

/-! ## Handles are never released -/

theorem acquisitions_append (a b : List Event) :
    acquisitions (a ++ b) = acquisitions a + acquisitions b := by
  simp [acquisitions, List.filter_append]

theorem releases_append (a b : List Event) :
    releases (a ++ b) = releases a + releases b := by
  simp [releases, List.filter_append]

theorem iterationCalls_kind (interval : Int) (cs : List PerfCounter) :
    ∀ c ∈ iterationCalls interval cs,
      (∃ fd rq, c = Call.ioctl fd rq) ∨ (∃ fd, c = Call.read fd) ∨
        c = Call.sleep_for interval := by
  intro c hc
  simp only [iterationCalls, startCalls, stopCalls, List.mem_append, List.mem_flatMap,
    List.mem_cons, List.mem_singleton, List.not_mem_nil, or_false] at hc
  rcases hc with (⟨a, _, h | h⟩ | h) | ⟨a, _, h | h⟩
  · exact Or.inl ⟨_, _, h⟩
  · exact Or.inl ⟨_, _, h⟩
  · exact Or.inr (Or.inr h)
  · exact Or.inl ⟨_, _, h⟩
  · exact Or.inr (Or.inl ⟨_, h⟩)

theorem no_acquire_release_of_calls (interval : Int) (cs : List PerfCounter) (n : Nat)
    (es : List Event)
    (h : es.map Event.call = (List.replicate n (iterationCalls interval cs)).flatten) :
    acquisitions es = 0 ∧ releases es = 0 := by
  have hkind : ∀ e ∈ es, (∃ fd rq, e.call = Call.ioctl fd rq) ∨ (∃ fd, e.call = Call.read fd) ∨
      e.call = Call.sleep_for interval := by
    intro e he
    have hmem : e.call ∈ (List.replicate n (iterationCalls interval cs)).flatten :=
      h ▸ List.mem_map_of_mem Event.call he
    obtain ⟨l, hl, hel⟩ := List.mem_flatten.mp hmem
    rw [(List.mem_replicate.mp hl).2] at hel
    exact iterationCalls_kind interval cs _ hel
  constructor
  · unfold acquisitions
    rw [List.length_eq_zero, List.filter_eq_nil_iff]
    intro e he
    rcases hkind e he with ⟨fd, rq, hc⟩ | ⟨fd, hc⟩ | hc <;>
      cases e <;> simp [Event.call] at hc ⊢
  · unfold releases
    rw [List.length_eq_zero, List.filter_eq_nil_iff]
    intro e he
    rcases hkind e he with ⟨fd, rq, hc⟩ | ⟨fd, hc⟩ | hc <;>
      cases e <;> simp [Event.call] at hc ⊢

theorem open_acquisitions (cs : List PerfCounter) (outs : List (Option Nat)) :
    acquisitions (List.zipWith
        (fun c o => Event.perf_event_open (attrOf c) 0 (-1) (-1) 0 o) cs outs) =
      ((List.zipWith (fun c o => ({ c with fd := sysret o } : PerfCounter)) cs outs).filter
        live).length ∧
    releases (List.zipWith
        (fun c o => Event.perf_event_open (attrOf c) 0 (-1) (-1) 0 o) cs outs) = 0 := by
  induction cs generalizing outs with
  | nil => exact ⟨rfl, rfl⟩
  | cons c cs ih =>
    cases outs with
    | nil => exact ⟨rfl, rfl⟩
    | cons o outs =>
      obtain ⟨h1, h2⟩ := ih outs
      unfold acquisitions at h1 ⊢
      unfold releases at h2 ⊢
      refine ⟨?_, ?_⟩
      · cases o with
        | none => simpa [List.filter_cons, live, sysret] using h1
        | some fd =>
          have hne : ¬ ((fd : Int) = -1) := by omega
          simpa [List.filter_cons, live, sysret, hne] using h1
      · rw [List.zipWith_cons_cons, List.filter_cons]
        exact h2

theorem setupCounters_acquisitions {σ : Type} (abi : PerfABI) (K : Kernel σ) (s : σ) :
    acquisitions (setupCounters abi K (World.init s)).2.trace =
      ((setupCounters abi K (World.init s)).1.filter live).length ∧
    releases (setupCounters abi K (World.init s)).2.trace = 0 := by
  obtain ⟨outs, _, hcs, htr⟩ := openCounters_spec K (catalog abi) (World.init s)
  unfold setupCounters
  rw [htr, hcs]
  simpa [World.init] using open_acquisitions (catalog abi) outs

theorem stateAfter_acquisitions {σ : Type} (abi : PerfABI) (K : Kernel σ) (interval : Int)
    (s : σ) (k : Nat) :
    acquisitions (stateAfter abi K interval s k).2.trace =
      ((stateAfter abi K interval s k).1.filter live).length ∧
    releases (stateAfter abi K interval s k).2.trace = 0 := by
  obtain ⟨hs, es, h1, h2⟩ := iterate_spec K interval k (setupCounters abi K (World.init s))
  obtain ⟨ha, hr⟩ := no_acquire_release_of_calls interval _ k es h2
  obtain ⟨ha0, hr0⟩ := setupCounters_acquisitions abi K s
  have hlen : ((stateAfter abi K interval s k).1.filter live).length =
      ((setupCounters abi K (World.init s)).1.filter live).length := by
    have := congrArg List.length (sameHandles_live_fd hs)
    simpa using this
  unfold stateAfter at hlen ⊢
  rw [h1, acquisitions_append, releases_append, ha, hr, ha0, hr0, hlen]
  exact ⟨rfl, rfl⟩

theorem broken_live_count :
    ((setupCounters linuxABI brokenKernel (World.init 3)).1.filter live).length = 5 := by
  rw [broken_setup]
  decide

/-- C8 (counterexample): on a kernel where the five opens succeed, `main` returns on either
path (status 1 when the output file cannot be opened, status 0 after the 360 iterations) with
five acquisitions and no release: all five handles are still open. -/
theorem broken_main_leaks :
    (∃ r, main linuxABI brokenKernel false 3 = some r ∧ r.status = 1 ∧
      acquisitions r.world.trace = 5 ∧ releases r.world.trace = 0) ∧
    (∃ r, main linuxABI brokenKernel true 3 = some r ∧ r.status = 0 ∧
      acquisitions r.world.trace = 5 ∧ releases r.world.trace = 0) := by
  constructor
  · refine ⟨_, mainWith_not_open linuxABI brokenKernel 5 (30 * 60) 3, rfl, ?_, ?_⟩
    · dsimp only
      rw [(setupCounters_acquisitions linuxABI brokenKernel 3).1, broken_live_count]
    · dsimp only
      exact (setupCounters_acquisitions linuxABI brokenKernel 3).2
  · refine ⟨_, main_eq linuxABI brokenKernel 3, rfl, ?_, ?_⟩
    · dsimp only
      rw [(stateAfter_acquisitions linuxABI brokenKernel 5 3 360).1, broken_stateAfter,
        broken_live_count]
    · dsimp only
      exact (stateAfter_acquisitions linuxABI brokenKernel 5 3 360).2

/-- C8 (amended): `main` never calls `close`.  On both return paths (the early return when the
output file cannot be opened, and the normal return after the loop) the trace holds no release,
and the number of acquisitions is the number of live counters, each of which still holds its
open handle when `main` returns. -/
theorem main_never_closes {σ : Type} (abi : PerfABI) (K : Kernel σ) (s : σ) (fileOpens : Bool)
    (interval total_duration : Int) (h : fileOpens = false ∨ interval ≠ 0) :
    ∃ r, mainWith abi K fileOpens interval total_duration s = some r ∧
      releases r.world.trace = 0 ∧
      acquisitions r.world.trace = (r.counters.filter (fun c => decide (c.fd ≠ -1))).length := by
  cases hf : fileOpens with
  | false =>
    refine ⟨_, mainWith_not_open abi K interval total_duration s, ?_, ?_⟩
    · exact (setupCounters_acquisitions abi K s).2
    · exact (setupCounters_acquisitions abi K s).1
  | true =>
    have hI : interval ≠ 0 := by
      rcases h with h | h
      · rw [hf] at h
        cases h
      · exact h
    refine ⟨_, mainWith_eq abi K interval total_duration s hI, ?_, ?_⟩
    · exact (stateAfter_acquisitions abi K interval s _).2
    · exact (stateAfter_acquisitions abi K interval s _).1

/-- The release theorem on the early return path, five opens granted. -/
theorem main_never_closes_witness :
    (false = false ∨ (5 : Int) ≠ 0) ∧
    ∃ r, mainWith linuxABI brokenKernel false 5 1800 3 = some r ∧
      releases r.world.trace = 0 ∧
      acquisitions r.world.trace = (r.counters.filter (fun c => decide (c.fd ≠ -1))).length :=
  ⟨Or.inl rfl, main_never_closes linuxABI brokenKernel 3 false 5 1800 (Or.inl rfl)⟩

/-! ## The outcomes of `main` -/

/-- The program takes no configuration: `interval` and `total_duration` are the constants 5
and 30 * 60 of `main`, both positive, and nothing in `main` tests them.  Every run of `main`
starts with the five `perf_event_open` calls of `setupCounters` and then returns 1 (the output
file could not be opened, nothing is written) or 0 (the header and the 360 rows are
written); there is no third outcome. -/
theorem main_outcomes {σ : Type} (abi : PerfABI) (K : Kernel σ) (s : σ) (fileOpens : Bool) :
    ∃ r, main abi K fileOpens s = some r ∧
      (r.status = if fileOpens then 0 else 1) ∧
      (r.outfile.isSome = fileOpens) ∧
      ∃ es, r.world.trace = (setupCounters abi K (World.init s)).2.trace ++ es ∧
        (setupCounters abi K (World.init s)).2.trace.map Event.call =
          (catalog abi).map openCall := by
  cases fileOpens with
  | false =>
    exact ⟨_, mainWith_not_open abi K 5 (30 * 60) s, rfl, rfl, [], by simp,
      setupCounters_calls abi K s⟩
  | true =>
    obtain ⟨_, es, h, _⟩ := iterate_spec K 5 360 (setupCounters abi K (World.init s))
    refine ⟨_, main_eq abi K s, rfl, rfl, es, ?_, setupCounters_calls abi K s⟩
    dsimp only
    unfold stateAfter
    exact h

end PerfMonitor
